import Mathlib

/-!
Verification development for pyes/utils.py.

The file shallowly embeds the two core subsystems of the repository:

* the configuration-driven record serializer (the source function
  get_values, lines 158-266), and
* the response normalizer (the source class ResultSet, lines 85-141),

together with the identifier-encoding helpers (string_b64encode /
string_b64decode, lines 12-20), which wrap the CPython base64 module
(urlsafe_b64encode / urlsafe_b64decode, whose decoder is binascii's
a2b_base64 routine, modelled here from the CPython 2 sources).

Python values are represented by an inductive type carrying exactly the
distinctions get_values inspects; Python dicts are association lists with
insert-or-overwrite assignment; machine references that may raise become
Option, raised exceptions become Except, and the (in the source unbounded)
recursion of get_values is driven by an explicit fuel parameter so that all
definitions compute.
-/

set_option maxHeartbeats 1000000

namespace Pyes

/-- Identifier of a Python object holding a Django model instance.  The
environment maps identifiers to records; Python references always point to
live objects, so the environment is a total function. -/
abbrev RecordId := Nat

/-- A Python runtime value, carrying exactly the distinctions that
get_values inspects: the SIMPLE_TYPES tuple (int/long, str/unicode, list,
dict, tuple, bool, float, NoneType), the temporal types (datetime.date,
datetime.time, datetime.datetime, all treated identically by the source),
Django Model instances (references into the environment), Django Manager
objects, zero-argument callables (modelled by the value they return), and
arbitrary other objects carrying their repr text.  Containers and floats
are opaque to get_values (it never looks inside them), so they are
represented by an identity tag. -/
inductive PyVal where
  | none
  | int (n : Int)
  | str (s : String)
  | bool (b : Bool)
  | float (u : Nat)
  | listv (u : Nat)
  | dictv (u : Nat)
  | tuplev (u : Nat)
  | datetime (u : Nat)
  | model (rid : RecordId)
  | manager (u : Nat)
  | callablev (res : PyVal)
  | other (r : String)
deriving DecidableEq, Repr

/-- A Django model instance as the serializer sees it: its primary key
value, its attribute map (getattr; the result none models an attribute
access that raises), and the list returned by
instance._meta.get_all_field_names(). -/
structure Record where
  pk : PyVal
  attrs : String → Option PyVal
  fieldNames : List String

/-- The heap of model instances. -/
abbrev Env := RecordId → Record

/-- Python getattr(instance, field); none models a raised exception. -/
def getattr (r : Record) (f : String) : Option PyVal := r.attrs f

/-- Membership in the SIMPLE_TYPES tuple of get_values (line 177):
int, long, str, list, dict, tuple, bool, float, unicode, NoneType. -/
def isSimple : PyVal → Bool
  | .none => true
  | .int _ => true
  | .str _ => true
  | .bool _ => true
  | .float _ => true
  | .listv _ => true
  | .dictv _ => true
  | .tuplev _ => true
  | _ => false

/-- Python callable(value): only zero-argument callables are modelled. -/
def isCallable : PyVal → Bool
  | .callablev _ => true
  | _ => false

/-- Result of invoking a callable value with no arguments. -/
def callResult : PyVal → PyVal
  | .callablev w => w
  | v => v

/-- The conditional invocation if callable(value): value = value() that
both the extra loop (lines 202-203) and the field classification
(lines 258-259) perform before the SIMPLE_TYPES test. -/
def callIf (p : PyVal) : PyVal := if isCallable p then callResult p else p

/-- isinstance(value, Manager) (line 221). -/
def isManager : PyVal → Bool
  | .manager _ => true
  | _ => false

/-- isinstance(value, (datetime.date, datetime.time, datetime.datetime))
(lines 252-254). -/
def isDatetime : PyVal → Bool
  | .datetime _ => true
  | _ => false

/-- Python repr(value).  get_values only ever applies repr to values that
fall outside SIMPLE_TYPES, so only those branches matter; repr is modelled
as an opaque textual tag. -/
def reprPy : PyVal → String
  | .none => "None"
  | .int n => toString n
  | .str s => s
  | .bool b => cond b "True" "False"
  | .float u => "<float " ++ toString u ++ ">"
  | .listv u => "<list " ++ toString u ++ ">"
  | .dictv u => "<dict " ++ toString u ++ ">"
  | .tuplev u => "<tuple " ++ toString u ++ ">"
  | .datetime u => "<datetime " ++ toString u ++ ">"
  | .model rid => "<Model " ++ toString rid ++ ">"
  | .manager u => "<Manager " ++ toString u ++ ">"
  | .callablev _ => "<callable>"
  | .other r => r

/-- Python key.startswith an underscore, which for the field loop of
get_values is written field[0] == an underscore character (line 221);
both test whether the first character is an underscore. -/
def keyPrefixed (k : String) : Bool :=
  match k.data with
  | [] => false
  | c :: _ => c == '_'

/-- Python key[1:] for a string key. -/
def keyStrip (k : String) : String := ⟨k.data.tail⟩

/-- Python dict lookup d.get(k) / d.has_key(k) / d[k] over an association
list with unique keys. -/
def dlookup {α : Type} : List (String × α) → String → Option α
  | [], _ => Option.none
  | (k', v') :: rest, k => if k' = k then some v' else dlookup rest k

/-- Python dict assignment d[k] = v: overwrite in place if the key is
present, append otherwise. -/
def dinsert {α : Type} : List (String × α) → String → α → List (String × α)
  | [], k, v => [(k, v)]
  | (k', v') :: rest, k, v =>
    if k' = k then (k, v) :: rest else (k', v') :: dinsert rest k v

/-- Python del d[k]. -/
def ddel {α : Type} (d : List (String × α)) (k : String) : List (String × α) :=
  d.filter (fun p => decide (p.1 ≠ k))

/-- The exclude / extra arguments of get_values: either a bare string
(shorthand) or a tuple of field names. -/
inductive ExVal where
  | str (s : String)
  | tuple (xs : List String)
deriving DecidableEq, Repr

mutual
/-- The go_into argument of get_values: either a bare string (shorthand
for a singleton mapping to an empty dict, lines 189-190) or a dict from
field names to per-field sub-configurations. -/
inductive GoInto where
  | str (s : String)
  | dict (entries : List (String × GoVal))

/-- One value of the go_into dict.  obj is a dict that may carry the keys
go_into, exclude and extra (absent keys make .get return the default);
nonGet is any object without a .get method, for which the source catches
AttributeError and falls back to all three defaults (lines 229-242). -/
inductive GoVal where
  | obj (goInto : Option GoInto) (excl : Option ExVal) (extra : Option ExVal)
  | nonGet
end

/-- go_into[field].get(the go_into key, default empty dict). -/
def gvGoInto : GoVal → GoInto
  | .obj gi _ _ => gi.getD (.dict [])
  | .nonGet => .dict []

/-- go_into[field].get(the exclude key, default empty tuple). -/
def gvExclude : GoVal → ExVal
  | .obj _ ex _ => ex.getD (.tuple [])
  | .nonGet => .tuple []

/-- go_into[field].get(the extra key, default empty tuple). -/
def gvExtra : GoVal → ExVal
  | .obj _ _ xt => xt.getD (.tuple [])
  | .nonGet => .tuple []

/-- Shorthand normalization of go_into (lines 189-190): a bare string s
becomes the dict mapping s to an empty dict. -/
def normGo : GoInto → List (String × GoVal)
  | .str s => [(s, .obj Option.none Option.none Option.none)]
  | .dict es => es

/-- Shorthand normalization of exclude / extra (lines 192-196): a bare
string becomes a one-element tuple. -/
def normEx : ExVal → List String
  | .str s => [s]
  | .tuple xs => xs

/-- Exceptions the embedded code can raise. -/
inductive PyErr where
  | typeError
  | attributeError
  | keyError
deriving DecidableEq, Repr

/-- A value stored in the output document: either a Python value or a
nested document produced by relation expansion. -/
inductive DocVal where
  | pyv (v : PyVal)
  | nested (entries : List (String × DocVal))

/-- The output document of get_values: a Python dict. -/
abbrev Doc := List (String × DocVal)

/-- Body of the extra loop of get_values (lines 199-210) for one name:
resolve the accessor (an access failure raises, uncaught here), invoke it
if callable, skip if skip_none and the value is None, store it if it is a
SIMPLE_TYPES instance and its repr otherwise. -/
def extraStep (r : Record) (sn : Bool) (doc : Doc) (f : String) : Option Doc :=
  match getattr r f with
  | Option.none => Option.none
  | some p0 =>
    if sn ∧ callIf p0 = PyVal.none then some doc
    else if isSimple (callIf p0) then some (dinsert doc f (.pyv (callIf p0)))
    else some (dinsert doc f (.pyv (.str (reprPy (callIf p0)))))

/-- The extra loop of get_values (lines 199-210). -/
def extraLoop (r : Record) (sn : Bool) : List String → Doc → Option Doc
  | [], doc => some doc
  | f :: rest, doc =>
    match extraStep r sn doc f with
    | Option.none => Option.none
    | some d => extraLoop r sn rest d

/-- The classification applied to a declared field value that is not
expanded through go_into (lines 248-264): a Model becomes its pk, a
temporal value is stored unconverted, anything else is invoked if
callable and then stored as-is when simple and as its repr otherwise. -/
def classifyField (env : Env) : PyVal → DocVal
  | .model rid => .pyv (env rid).pk
  | .datetime u => .pyv (.datetime u)
  | p => if isSimple (callIf p) then .pyv (callIf p) else .pyv (.str (reprPy (callIf p)))

/-- The declared-field loop of get_values (lines 213-264).  recurse is the
recursive call made for go_into fields (line 244); its exceptions
propagate, while a field whose getattr raises is skipped (lines 214-217).
The result none means the fuel of the driving recursion ran out. -/
def fieldLoop (env : Env)
    (recurse : PyVal → GoInto → ExVal → ExVal → Bool → Option (Except PyErr Doc))
    (r : Record) (gis : List (String × GoVal)) (exL : List String) (sn : Bool) :
    List String → Doc → Option (Except PyErr Doc)
  | [], doc => some (.ok doc)
  | f :: rest, doc =>
    match getattr r f with
    | Option.none => fieldLoop env recurse r gis exL sn rest doc
    | some p =>
      if sn ∧ p = PyVal.none then fieldLoop env recurse r gis exL sn rest doc
      else if f ∈ exL ∨ keyPrefixed f = true ∨ isManager p = true then
        fieldLoop env recurse r gis exL sn rest doc
      else
        match dlookup gis f with
        | some gv =>
          match recurse p (gvGoInto gv) (gvExclude gv) (gvExtra gv) sn with
          | Option.none => Option.none
          | some (.error e) => some (.error e)
          | some (.ok sub) => fieldLoop env recurse r gis exL sn rest (dinsert doc f (.nested sub))
        | Option.none => fieldLoop env recurse r gis exL sn rest (dinsert doc f (classifyField env p))

/-- get_values (lines 158-266).  The fuel parameter makes the source's
unbounded recursion (one nesting level of go_into per recursive call)
total: the result none means the fuel was exhausted, some (.error e)
models a raised exception, some (.ok doc) a normal return.  The instance
must be a Model (lines 180-181), the document always starts with the pk
entry (lines 183-185), shorthand arguments are normalized (lines 187-196),
then the extra loop and the declared-field loop run. -/
def get_values (env : Env) : Nat → PyVal → GoInto → ExVal → ExVal → Bool → Option (Except PyErr Doc)
  | 0, _, _, _, _, _ => Option.none
  | fuel + 1, inst, gi, ex, xt, sn =>
    match inst with
    | .model rid =>
      let r := env rid
      match extraLoop r sn (normEx xt) [("pk", .pyv r.pk)] with
      | Option.none => some (.error .attributeError)
      | some doc0 =>
        fieldLoop env (get_values env fuel) r (normGo gi) (normEx ex) sn r.fieldNames doc0
    | _ => some (.error .typeError)

/-! ## The response normalizer (class ResultSet, lines 85-141) -/

/-- A value inside a raw search response: the JSON-like shapes the
normalizer can meet.  dict entries are association lists with unique
keys. -/
inductive RVal where
  | dict (entries : List (String × RVal))
  | list (xs : List RVal)
  | str (s : String)
  | int (n : Int)
  | bool (b : Bool)
  | null
deriving Repr

mutual
/-- Python equality over response values, used by the membership test in
clean_highlight.  (Python dict equality ignores entry order; the
association-list comparison here is order-sensitive, but the only use in
this file compares against a string, where the two coincide.) -/
def rvalBeq : RVal → RVal → Bool
  | .dict a, .dict b => rvalEntriesBeq a b
  | .list a, .list b => rvalListBeq a b
  | .str a, .str b => a == b
  | .int a, .int b => a == b
  | .bool a, .bool b => a == b
  | .null, .null => true
  | _, _ => false

/-- Elementwise rvalBeq on lists. -/
def rvalListBeq : List RVal → List RVal → Bool
  | [], [] => true
  | a :: as, b :: bs => rvalBeq a b && rvalListBeq as bs
  | _, _ => false

/-- Entrywise rvalBeq on dict entry lists. -/
def rvalEntriesBeq : List (String × RVal) → List (String × RVal) → Bool
  | [], [] => true
  | (k, v) :: as, (k', v') :: bs => k == k' && rvalBeq v v' && rvalEntriesBeq as bs
  | _, _ => false
end

/-- Python truth test used by clean_highlight (line 136): not item. -/
def isFalsy : RVal → Bool
  | .dict [] => true
  | .list [] => true
  | .str s => s.isEmpty
  | .int n => n == 0
  | .bool b => !b
  | .null => true
  | _ => false

/-- The body of the fix_keys loop for one snapshot entry (lines 121-123):
if the key starts with an underscore, assign hit[key[1:]] = item and
delete hit[key]. -/
def fixStep (d : List (String × RVal)) (kv : String × RVal) : List (String × RVal) :=
  if keyPrefixed kv.1 then ddel (dinsert d (keyStrip kv.1) kv.2) kv.1 else d

/-- One hit of fix_keys (lines 120-123): iterate over a snapshot of the
hit's items (Python 2 items() returns a list) while mutating the hit. -/
def fixHit (h : List (String × RVal)) : List (String × RVal) :=
  h.foldl fixStep h

/-- fix_keys applied to the list of hits: every element must be a dict
(otherwise hit.items() raises AttributeError). -/
def fixHits : List RVal → Except PyErr (List RVal)
  | [] => .ok []
  | .dict h :: rest => (fixHits rest).map (fun r => .dict (fixHit h) :: r)
  | _ :: _ => .error .attributeError

/-- The body of ResultSet.fix_keys on a valid result set (lines 119-123):
self.results must be subscriptable by a string (a dict, else TypeError),
must contain the key hits (else KeyError), and the hits value is iterated
(a non-empty dict or string yields non-dict elements whose items() raises;
an empty dict or string iterates zero times; anything but a list, dict or
string is not iterable).  The mutated results structure is returned. -/
def fix_keys (working : RVal) : Except PyErr RVal :=
  match working with
  | .dict entries =>
    match dlookup entries "hits" with
    | Option.none => .error .keyError
    | some v =>
      match v with
      | .list xs => (fixHits xs).map (fun xs' => .dict (dinsert entries "hits" (.list xs')))
      | .dict [] => .ok (.dict entries)
      | .dict (_ :: _) => .error .attributeError
      | .str s => if s.isEmpty then .ok (.dict entries) else .error .attributeError
      | _ => .error .typeError
  | _ => .error .typeError

/-- One hit of clean_highlight (lines 133-137): if the hit has a highlight
key, its value must be a dict (else .items() raises AttributeError), and
every falsy entry of that dict is deleted, iterating over a snapshot of
its items. -/
def cleanHit (h : List (String × RVal)) : Except PyErr (List (String × RVal)) :=
  match dlookup h "highlight" with
  | Option.none => .ok h
  | some hl =>
    match hl with
    | .dict hle =>
      .ok (dinsert h "highlight"
        (.dict (hle.foldl (fun d kv => if isFalsy kv.2 then ddel d kv.1 else d) hle)))
    | _ => .error .attributeError

/-- clean_highlight applied to the list of hits.  The membership test
the highlight key in hit is Python in: key membership for a dict element,
element membership for a list, substring test for a string, TypeError
otherwise; a non-dict container that does not contain it is skipped, one
that does raises TypeError on the subscript hit[the highlight key]. -/
def cleanHits : List RVal → Except PyErr (List RVal)
  | [] => .ok []
  | .dict h :: rest =>
    match cleanHit h with
    | .error e => .error e
    | .ok h' => (cleanHits rest).map (fun r => .dict h' :: r)
  | .list xs :: rest =>
    if xs.any (fun x => rvalBeq x (.str "highlight")) then .error .typeError
    else (cleanHits rest).map (fun r => .list xs :: r)
  | .str s :: rest =>
    if decide ("highlight".data <:+: s.data) then .error .typeError
    else (cleanHits rest).map (fun r => .str s :: r)
  | _ :: _ => .error .typeError

/-- The body of ResultSet.clean_highlight on a valid result set
(lines 132-137); same access pattern to results[the hits key] as
fix_keys. -/
def clean_highlight (working : RVal) : Except PyErr RVal :=
  match working with
  | .dict entries =>
    match dlookup entries "hits" with
    | Option.none => .error .keyError
    | some v =>
      match v with
      | .list xs => (cleanHits xs).map (fun xs' => .dict (dinsert entries "hits" (.list xs')))
      | .dict [] => .ok (.dict entries)
      | .dict (_ :: _) => .error .attributeError
      | .str s => if s.isEmpty then .ok (.dict entries) else .error .attributeError
      | _ => .error .typeError
  | _ => .error .typeError

/-- The state of a constructed ResultSet: the working results structure
(replaced by the hits sub-structure when the response is valid), the
valid flag, the extracted facets block and the memoized _total slot
(totalMemo none models the Python sentinel None of line 93). -/
structure ResultSet where
  results : RVal
  valid : Bool
  facets : RVal
  totalMemo : Option RVal

/-- ResultSet.__init__ (lines 86-102), in explicit-state form.  The raw
response is the caller's dict; since Python passes it by reference and
fix_keys / clean_highlight mutate the hit dicts in place, the constructor
returns both the ResultSet state and the caller's mapping as it stands
after construction (the original dict with its hits value replaced by the
mutated working structure; the attribute self.results aliases exactly that
structure).  When the response is invalid both passes return at once and
the caller's mapping is untouched. -/
def ResultSet.init (raw : List (String × RVal)) (fixKeysFlag cleanHighlightFlag : Bool) :
    Except PyErr (ResultSet × List (String × RVal)) :=
  let facets := (dlookup raw "facets").getD (.dict [])
  match dlookup raw "hits" with
  | some h =>
    match (if fixKeysFlag then fix_keys h else .ok h) with
    | .error e => .error e
    | .ok h1 =>
      match (if cleanHighlightFlag then clean_highlight h1 else .ok h1) with
      | .error e => .error e
      | .ok h2 => .ok (⟨h2, true, facets, Option.none⟩, dinsert raw "hits" h2)
  | Option.none => .ok (⟨.dict raw, false, facets, Option.none⟩, raw)

/-- The total property (lines 104-110): memoized on _total; on a miss it
first writes 0, then, when valid, overwrites it with
self.results.get(the total key, 0) - which raises AttributeError when the
working structure is not a dict, leaving 0 memoized. -/
def ResultSet.total (s : ResultSet) : Except PyErr RVal × ResultSet :=
  match s.totalMemo with
  | some t => (.ok t, s)
  | Option.none =>
    if s.valid then
      match s.results with
      | .dict es =>
        let t := (dlookup es "total").getD (.int 0)
        (.ok t, ⟨s.results, s.valid, s.facets, some t⟩)
      | _ => (.error .attributeError, ⟨s.results, s.valid, s.facets, some (.int 0)⟩)
    else (.ok (.int 0), ⟨s.results, s.valid, s.facets, some (.int 0)⟩)

/-! ## Identifier encoding (string_b64encode / string_b64decode, lines 12-20)

The two helpers wrap CPython's base64 module.  Byte strings are modelled
as lists of naturals below 256; character strings as lists of characters.
The encoder is base64.urlsafe_b64encode; the decoder is
base64.urlsafe_b64decode, i.e. the translation of the two URL-safe
characters to their standard counterparts followed by binascii's
a2b_base64, whose loop (including its lenient handling of pad characters)
is modelled from the CPython 2 binascii.c source. -/

/-- The URL-safe base64 alphabet: value 0-25 to uppercase letters, 26-51
to lowercase letters, 52-61 to digits, 62 to the minus sign, 63 to the
underscore. -/
def b64char (v : Nat) : Char :=
  if v < 26 then Char.ofNat (65 + v)
  else if v < 52 then Char.ofNat (97 + (v - 26))
  else if v < 62 then Char.ofNat (48 + (v - 52))
  else if v = 62 then '-' else '_'

/-- base64.urlsafe_b64encode: three input bytes become four alphabet
characters; a final group of two or one bytes is padded with one or two
pad characters. -/
def urlsafe_b64encode : List Nat → List Char
  | b0 :: b1 :: b2 :: rest =>
    b64char (b0 / 4) :: b64char (b0 % 4 * 16 + b1 / 16) ::
      b64char (b1 % 16 * 4 + b2 / 64) :: b64char (b2 % 64) :: urlsafe_b64encode rest
  | [b0, b1] => [b64char (b0 / 4), b64char (b0 % 4 * 16 + b1 / 16), b64char (b1 % 16 * 4), '=']
  | [b0] => [b64char (b0 / 4), b64char (b0 % 4 * 16), '=', '=']
  | [] => []

/-- Python str.strip with the pad character: remove pad characters from
both ends of the string. -/
def stripPad (l : List Char) : List Char :=
  ((l.dropWhile (fun c => c == '=')).reverse.dropWhile (fun c => c == '=')).reverse

/-- string_b64encode (lines 12-17): URL-safe base64 followed by stripping
the pad characters. -/
def string_b64encode (s : List Nat) : List Char :=
  stripPad (urlsafe_b64encode s)

/-- The urlsafe_b64decode character translation: minus to plus and
underscore to slash. -/
def urlTranslate (c : Char) : Char :=
  if c = '-' then '+' else if c = '_' then '/' else c

/-- binascii's table_a2b_base64 for the standard alphabet: the 6-bit value
of a character, or none for characters outside the alphabet (which the
decoder loop skips). -/
def b64val (c : Char) : Option Nat :=
  if 'A' ≤ c ∧ c ≤ 'Z' then some (c.toNat - 65)
  else if 'a' ≤ c ∧ c ≤ 'z' then some (c.toNat - 97 + 26)
  else if '0' ≤ c ∧ c ≤ '9' then some (c.toNat - 48 + 52)
  else if c = '+' then some 62
  else if c = '/' then some 63
  else Option.none

/-- binascii_find_valid: the next character that is either in the alphabet
table or a pad character. -/
def findValid : List Char → Option Char
  | [] => Option.none
  | c :: rest => if (b64val c).isSome ∨ c = '=' then some c else findValid rest

/-- The main loop of binascii's a2b_base64 over (chars, quad position,
leftover bit buffer, leftover bit count, accumulated output bytes).
A pad character before quad position 2, or at quad position 2 when the
next valid character is not another pad, is skipped; otherwise it ends the
input (discarding the leftover bits).  A character outside the table is
skipped.  Every table character shifts six bits into the buffer and emits
a byte once eight bits are available.  Leftover bits at the end of the
string raise the Incorrect-padding error, modelled as none. -/
def a2b : List Char → Nat → Nat → Nat → List Nat → Option (List Nat)
  | [], _, _, leftbits, acc => if leftbits = 0 then some acc.reverse else Option.none
  | c :: rest, quadPos, leftchar, leftbits, acc =>
    if c = '=' then
      if quadPos < 2 ∨ (quadPos = 2 ∧ findValid rest ≠ some '=') then
        a2b rest quadPos leftchar leftbits acc
      else some acc.reverse
    else
      match b64val c with
      | Option.none => a2b rest quadPos leftchar leftbits acc
      | some v =>
        let lc := leftchar * 64 + v
        let lb := leftbits + 6
        if 8 ≤ lb then
          a2b rest ((quadPos + 1) % 4) (lc % 2 ^ (lb - 8)) (lb - 8) (lc / 2 ^ (lb - 8) % 256 :: acc)
        else a2b rest ((quadPos + 1) % 4) lc lb acc

/-- base64.urlsafe_b64decode: translate the URL-safe characters, then run
a2b_base64. -/
def urlsafe_b64decode (s : List Char) : Option (List Nat) :=
  a2b (s.map urlTranslate) 0 0 0 []

/-- string_b64decode (lines 19-20): re-append length-mod-4 pad characters,
then URL-safe decode. -/
def string_b64decode (s : List Char) : Option (List Nat) :=
  urlsafe_b64decode (s ++ List.replicate (s.length % 4) '=')

/-! ## Dictionary lemmas -/

theorem dlookup_dinsert_ne {α : Type} (d : List (String × α)) (k k' : String) (v : α)
    (h : k' ≠ k) : dlookup (dinsert d k v) k' = dlookup d k' := by
  induction d with
  | nil => simp [dinsert, dlookup, Ne.symm h]
  | cons p rest ih =>
    obtain ⟨k0, v0⟩ := p
    by_cases h0 : k0 = k
    · subst h0
      have h0' : ¬ k0 = k' := Ne.symm h
      simp [dinsert, dlookup, h0']
    · simp only [dinsert, if_neg h0, dlookup]
      by_cases h1 : k0 = k'
      · simp [h1]
      · simp [h1, ih]

theorem dlookup_dinsert_self {α : Type} (d : List (String × α)) (k : String) (v : α) :
    dlookup (dinsert d k v) k = some v := by
  induction d with
  | nil => simp [dinsert, dlookup]
  | cons p rest ih =>
    obtain ⟨k0, v0⟩ := p
    by_cases h0 : k0 = k
    · subst h0; simp [dinsert, dlookup]
    · simp [dinsert, dlookup, h0, ih]

/-! ## Claim C9: shorthand normalization -/

/-- C9: for every record, fuel, configuration and skip_none setting,
calling get_values with a bare string s for go_into, exclude or extra
returns exactly the same result as calling it with the corresponding
singleton: the one-entry mapping from s to an empty dict for go_into, the
one-element tuple containing s for exclude and extra. -/
theorem c9_shorthand_equivalence (env : Env) (fuel : Nat) (inst : PyVal) (s : String)
    (gi : GoInto) (ex xt : ExVal) (sn : Bool) :
    (get_values env fuel inst (.str s) ex xt sn =
      get_values env fuel inst (.dict [(s, .obj Option.none Option.none Option.none)]) ex xt sn)
    ∧ (get_values env fuel inst gi (.str s) xt sn =
        get_values env fuel inst gi (.tuple [s]) xt sn)
    ∧ (get_values env fuel inst gi ex (.str s) sn =
        get_values env fuel inst gi ex (.tuple [s]) sn) := by
  refine ⟨?_, ?_, ?_⟩ <;> cases fuel <;> rfl

/-! ## Claim C1: absence of a cycle guard

Two records that reference each other through the single-valued relation
rel, together with the n-fold unfolding of the self-referential go_into
dict g with g = the dict mapping rel to a dict whose go_into key is g
(constructible in the source language, where dict values are references).
The serializer follows the chain to any depth and returns normally at
every depth: no visited set exists and no cyclic-traversal error is ever
raised, so on the truly cyclic configuration the source recurses without
bound. -/

/-- Record A of the cycle: pk 1, single field rel referring to record B. -/
def recA : Record :=
  ⟨.int 1, fun f => if f = "rel" then some (.model 1) else Option.none, ["rel"]⟩

/-- Record B of the cycle: pk 2, single field rel referring back to A. -/
def recB : Record :=
  ⟨.int 2, fun f => if f = "rel" then some (.model 0) else Option.none, ["rel"]⟩

/-- The cyclic two-record environment. -/
def envCyc : Env := fun n => if n = 0 then recA else recB

/-- The n-fold unfolding of the self-referential go_into configuration. -/
def unfoldSpec : Nat → GoInto
  | 0 => .dict []
  | n + 1 => .dict [("rel", .obj (some (unfoldSpec n)) Option.none Option.none)]

/-- The document the serializer produces at depth n of the cycle (the flag
records whether the current record is A). -/
def cycDoc : Nat → Bool → Doc
  | 0, b => [("pk", .pyv (.int (cond b 1 2))), ("rel", .pyv (.int (cond b 2 1)))]
  | n + 1, b => [("pk", .pyv (.int (cond b 1 2))), ("rel", .nested (cycDoc n (!b)))]

theorem cycAux (n : Nat) :
    ∀ b, get_values envCyc (n + 1) (.model (cond b 0 1)) (unfoldSpec n)
      (.tuple []) (.tuple []) false = some (.ok (cycDoc n b)) := by
  induction n with
  | zero => intro b; cases b <;> rfl
  | succ n ih =>
    intro b
    cases b
    · have h : get_values envCyc (n + 1) (.model 0) (unfoldSpec n)
          (.tuple []) (.tuple []) false = some (.ok (cycDoc n true)) := ih true
      have step : get_values envCyc (n + 1 + 1) (.model 1) (unfoldSpec (n + 1))
          (.tuple []) (.tuple []) false =
          (match get_values envCyc (n + 1) (.model 0) (unfoldSpec n)
              (.tuple []) (.tuple []) false with
           | Option.none => Option.none
           | some (.error e) => some (.error e)
           | some (.ok sub) => some (.ok [("pk", .pyv (.int 2)), ("rel", .nested sub)])) := rfl
      show get_values envCyc (n + 1 + 1) (.model 1) (unfoldSpec (n + 1))
          (.tuple []) (.tuple []) false = some (.ok (cycDoc (n + 1) false))
      rw [step, h]
      rfl
    · have h : get_values envCyc (n + 1) (.model 1) (unfoldSpec n)
          (.tuple []) (.tuple []) false = some (.ok (cycDoc n false)) := ih false
      have step : get_values envCyc (n + 1 + 1) (.model 0) (unfoldSpec (n + 1))
          (.tuple []) (.tuple []) false =
          (match get_values envCyc (n + 1) (.model 1) (unfoldSpec n)
              (.tuple []) (.tuple []) false with
           | Option.none => Option.none
           | some (.error e) => some (.error e)
           | some (.ok sub) => some (.ok [("pk", .pyv (.int 1)), ("rel", .nested sub)])) := rfl
      show get_values envCyc (n + 1 + 1) (.model 0) (unfoldSpec (n + 1))
          (.tuple []) (.tuple []) false = some (.ok (cycDoc (n + 1) true))
      rw [step, h]
      rfl

/-- C1: on the cyclic two-record configuration the serializer performs no
cycle detection at all: for every unfolding depth n of the self-referential
go_into dict it recurses n+1 levels through records A and B (revisiting
each of them every second level) and returns normally with a document
nested n+1 levels deep - it never raises any error, cyclic-traversal or
otherwise.  On the actual self-referential dict of the source language
(whose n-fold unfolding this is, for every n) the recursion therefore
never terminates, instead of raising the CyclicTraversal error the claim
and the specification require. -/
theorem c1_no_cycle_guard (n : Nat) :
    get_values envCyc (n + 1) (.model 0) (unfoldSpec n) (.tuple []) (.tuple []) false =
      some (.ok (cycDoc n true)) :=
  cycAux n true

/-! ## Claim C5: underscore keys in the output document -/

mutual
/-- No key at any nesting depth below a document value starts with an
underscore. -/
def dvClean : DocVal → Bool
  | .pyv _ => true
  | .nested d => docClean d

/-- No key at any nesting depth of a document starts with an
underscore. -/
def docClean : List (String × DocVal) → Bool
  | [] => true
  | (k, v) :: rest => !(keyPrefixed k) && dvClean v && docClean rest
end

/-- Every name of an exclude / extra argument, after shorthand
normalization, avoids the underscore prefix. -/
def exClean (x : ExVal) : Bool := (normEx x).all (fun f => !(keyPrefixed f))

mutual
/-- Every extra list reachable at any nesting level of a go_into
configuration avoids the underscore prefix. -/
def giClean : GoInto → Bool
  | .str _ => true
  | .dict es => gvsClean es

/-- giClean over the entries of a go_into dict. -/
def gvsClean : List (String × GoVal) → Bool
  | [] => true
  | (_, gv) :: rest => gvClean gv && gvsClean rest

/-- giClean over one go_into dict value. -/
def gvClean : GoVal → Bool
  | .nonGet => true
  | .obj gi _ xt =>
    (match gi with | some g => giClean g | Option.none => true) &&
    (match xt with | some x => exClean x | Option.none => true)
end

theorem docClean_dinsert (d : Doc) (k : String) (v : DocVal)
    (hd : docClean d = true) (hk : keyPrefixed k = false) (hv : dvClean v = true) :
    docClean (dinsert d k v) = true := by
  induction d with
  | nil =>
    show (!(keyPrefixed k) && dvClean v && docClean []) = true
    rw [hk, hv]
    rfl
  | cons p rest ih =>
    obtain ⟨k0, v0⟩ := p
    have hd' : ((!(keyPrefixed k0) && dvClean v0) && docClean rest) = true := hd
    simp only [Bool.and_eq_true] at hd'
    obtain ⟨⟨h1, h2⟩, h3⟩ := hd'
    by_cases h0 : k0 = k
    · subst h0
      rw [dinsert, if_pos rfl]
      show (!(keyPrefixed k0) && dvClean v && docClean rest) = true
      rw [hk, hv, h3]
      rfl
    · rw [dinsert, if_neg h0]
      show (!(keyPrefixed k0) && dvClean v0 && docClean (dinsert rest k v)) = true
      rw [h1, h2, ih h3]
      rfl

theorem extraLoop_clean (r : Record) (sn : Bool) :
    ∀ (xs : List String) (doc d' : Doc),
      (∀ f ∈ xs, keyPrefixed f = false) → docClean doc = true →
      extraLoop r sn xs doc = some d' → docClean d' = true := by
  intro xs
  induction xs with
  | nil =>
    intro doc d' _ hd h
    rw [extraLoop] at h
    cases h
    exact hd
  | cons f rest ih =>
    intro doc d' hx hd h
    have hf : keyPrefixed f = false := hx f (by simp)
    have hrest : ∀ g ∈ rest, keyPrefixed g = false := fun g hg => hx g (by simp [hg])
    rw [extraLoop] at h
    cases hstep : extraStep r sn doc f with
    | none => rw [hstep] at h; simp at h
    | some d0 =>
      rw [hstep] at h
      have hd0 : docClean d0 = true := by
        rw [extraStep] at hstep
        cases hge : getattr r f with
        | none => simp [hge] at hstep
        | some p0 =>
          simp only [hge] at hstep
          by_cases h1 : sn ∧ callIf p0 = PyVal.none
          · rw [if_pos h1] at hstep; cases hstep; exact hd
          · rw [if_neg h1] at hstep
            by_cases h2 : isSimple (callIf p0) = true
            · rw [if_pos h2] at hstep
              cases hstep
              exact docClean_dinsert doc f _ hd hf rfl
            · rw [if_neg h2] at hstep
              cases hstep
              exact docClean_dinsert doc f _ hd hf rfl
      exact ih d0 d' hrest hd0 h

theorem gvsClean_lookup (es : List (String × GoVal)) (f : String) (gv : GoVal)
    (hes : gvsClean es = true) (h : dlookup es f = some gv) : gvClean gv = true := by
  induction es with
  | nil => simp [dlookup] at h
  | cons p rest ih =>
    obtain ⟨k0, v0⟩ := p
    have hes' : (gvClean v0 && gvsClean rest) = true := hes
    rw [Bool.and_eq_true] at hes'
    simp only [dlookup] at h
    by_cases h0 : k0 = f
    · rw [if_pos h0] at h; cases h; exact hes'.1
    · rw [if_neg h0] at h; exact ih hes'.2 h

theorem gvClean_goInto (gv : GoVal) (h : gvClean gv = true) :
    giClean (gvGoInto gv) = true := by
  cases gv with
  | nonGet => rfl
  | obj gi ex xt =>
    cases gi with
    | none => rfl
    | some g =>
      cases xt with
      | none =>
        have h' : (giClean g && true) = true := h
        rw [Bool.and_eq_true] at h'
        exact h'.1
      | some x =>
        have h' : (giClean g && exClean x) = true := h
        rw [Bool.and_eq_true] at h'
        exact h'.1

theorem gvClean_extra (gv : GoVal) (h : gvClean gv = true) :
    exClean (gvExtra gv) = true := by
  cases gv with
  | nonGet => rfl
  | obj gi ex xt =>
    cases xt with
    | none => rfl
    | some x =>
      cases gi with
      | none =>
        have h' : (true && exClean x) = true := h
        rw [Bool.and_eq_true] at h'
        exact h'.2
      | some g =>
        have h' : (giClean g && exClean x) = true := h
        rw [Bool.and_eq_true] at h'
        exact h'.2

theorem giClean_normGo (gi : GoInto) (h : giClean gi = true) :
    gvsClean (normGo gi) = true := by
  cases gi with
  | str s => rfl
  | dict es => exact h

theorem classifyField_dvClean (env : Env) (p : PyVal) :
    dvClean (classifyField env p) = true := by
  have hsplit : ∀ q : PyVal, dvClean (if isSimple (callIf q) then DocVal.pyv (callIf q)
      else DocVal.pyv (.str (reprPy (callIf q)))) = true := by
    intro q
    split <;> rfl
  cases p with
  | model rid => rfl
  | datetime u => rfl
  | none => exact hsplit PyVal.none
  | int n => exact hsplit (PyVal.int n)
  | str s => exact hsplit (PyVal.str s)
  | bool b => exact hsplit (PyVal.bool b)
  | float u => exact hsplit (PyVal.float u)
  | listv u => exact hsplit (PyVal.listv u)
  | dictv u => exact hsplit (PyVal.dictv u)
  | tuplev u => exact hsplit (PyVal.tuplev u)
  | manager u => exact hsplit (PyVal.manager u)
  | callablev w => exact hsplit (PyVal.callablev w)
  | other r => exact hsplit (PyVal.other r)

theorem fieldLoop_clean (env : Env)
    (recurse : PyVal → GoInto → ExVal → ExVal → Bool → Option (Except PyErr Doc))
    (r : Record) (gis : List (String × GoVal)) (exL : List String) (sn : Bool)
    (Hrec : ∀ p gi2 ex2 xt2 sub, giClean gi2 = true → exClean xt2 = true →
        recurse p gi2 ex2 xt2 sn = some (.ok sub) → docClean sub = true)
    (hgis : gvsClean gis = true) :
    ∀ (fields : List String) (doc d' : Doc), docClean doc = true →
      fieldLoop env recurse r gis exL sn fields doc = some (.ok d') →
      docClean d' = true := by
  intro fields
  induction fields with
  | nil =>
    intro doc d' hd h
    rw [fieldLoop] at h
    cases h
    exact hd
  | cons f rest ih =>
    intro doc d' hd h
    rw [fieldLoop] at h
    cases hge : getattr r f with
    | none => simp only [hge] at h; exact ih doc d' hd h
    | some p =>
      simp only [hge] at h
      by_cases h1 : sn ∧ p = PyVal.none
      · rw [if_pos h1] at h; exact ih doc d' hd h
      · rw [if_neg h1] at h
        by_cases h2 : f ∈ exL ∨ keyPrefixed f = true ∨ isManager p = true
        · rw [if_pos h2] at h; exact ih doc d' hd h
        · rw [if_neg h2] at h
          have hf : keyPrefixed f = false := by
            cases hh : keyPrefixed f
            · rfl
            · exact absurd (Or.inr (Or.inl hh)) h2
          cases hlk : dlookup gis f with
          | some gv =>
            simp only [hlk] at h
            cases hrec : recurse p (gvGoInto gv) (gvExclude gv) (gvExtra gv) sn with
            | none => simp [hrec] at h
            | some res =>
              simp only [hrec] at h
              cases res with
              | error e => exact absurd h (by simp)
              | ok sub =>
                have hgv := gvsClean_lookup gis f gv hgis hlk
                have hsub := Hrec p _ _ _ sub (gvClean_goInto gv hgv) (gvClean_extra gv hgv) hrec
                exact ih _ d' (docClean_dinsert doc f (.nested sub) hd hf hsub) h
          | none =>
            simp only [hlk] at h
            exact ih _ d'
              (docClean_dinsert doc f (classifyField env p) hd hf (classifyField_dvClean env p)) h

/-- C5, amended: the declared-field pass of get_values never stores an
underscore-prefixed key (the source skips those fields), and the pk entry
is unprefixed; but extra names bypass the underscore check, so the
guarantee holds exactly when no extra name - at the top level or inside
any nested go_into configuration - starts with an underscore: then no key
at any nesting depth of the output document starts with an underscore. -/
theorem notOkTypeErr {doc : Doc}
    (h : (some (Except.error PyErr.typeError) : Option (Except PyErr Doc)) =
      some (Except.ok doc)) : False := by
  simp at h

theorem c5_amended (env : Env) :
    ∀ (fuel : Nat) (inst : PyVal) (gi : GoInto) (ex xt : ExVal) (sn : Bool) (doc : Doc),
      giClean gi = true → exClean xt = true →
      get_values env fuel inst gi ex xt sn = some (.ok doc) → docClean doc = true := by
  intro fuel
  induction fuel with
  | zero => intro inst gi ex xt sn doc _ _ h; exact Option.noConfusion h
  | succ fuel ih =>
    intro inst gi ex xt sn doc hgi hxt h
    cases inst with
    | model rid =>
      rw [get_values] at h
      cases hx : extraLoop (env rid) sn (normEx xt) [("pk", .pyv (env rid).pk)] with
      | none => simp [hx] at h
      | some doc0 =>
        simp only [hx] at h
        have hd0 : docClean doc0 = true := by
          refine extraLoop_clean (env rid) sn (normEx xt)
            [("pk", DocVal.pyv (env rid).pk)] doc0 ?_ (by rfl) hx
          intro f hf
          have hxt' : (normEx xt).all (fun g => !(keyPrefixed g)) = true := hxt
          have := List.all_eq_true.mp hxt' f hf
          simpa using this
        exact fieldLoop_clean env (get_values env fuel) (env rid) (normGo gi) (normEx ex) sn
          (fun p gi2 ex2 xt2 sub h1 h2 h3 => ih p gi2 ex2 xt2 sn sub h1 h2 h3)
          (giClean_normGo gi hgi) (env rid).fieldNames doc0 doc hd0 h
    | none => exact (notOkTypeErr h).elim
    | int n => exact (notOkTypeErr h).elim
    | str s => exact (notOkTypeErr h).elim
    | bool b => exact (notOkTypeErr h).elim
    | float u => exact (notOkTypeErr h).elim
    | listv u => exact (notOkTypeErr h).elim
    | dictv u => exact (notOkTypeErr h).elim
    | tuplev u => exact (notOkTypeErr h).elim
    | datetime u => exact (notOkTypeErr h).elim
    | manager u => exact (notOkTypeErr h).elim
    | callablev w => exact (notOkTypeErr h).elim
    | other r => exact (notOkTypeErr h).elim

/-- Record with a single extra accessor whose name starts with an
underscore. -/
def recU : Record :=
  ⟨.int 1, fun f => if f = "_x" then some (.int 9) else Option.none, []⟩

/-- Environment for the C5 counterexample. -/
def envU : Env := fun _ => recU

/-- C5 counterexample: an extra name that starts with an underscore is
stored in the output document (extra names bypass the underscore check of
the field loop), so the claim that no underscore-prefixed key is ever
present regardless of the extra configuration is false. -/
theorem c5_counterexample :
    get_values envU 1 (.model 0) (.dict []) (.tuple []) (.tuple ["_x"]) false =
      some (.ok [("pk", .pyv (.int 1)), ("_x", .pyv (.int 9))])
    ∧ keyPrefixed "_x" = true := ⟨rfl, rfl⟩

/-- Record for the spec's end-to-end examples: pk 7, a plain string field
and a single-valued relation to the category record. -/
def wRec0 : Record :=
  ⟨.int 7,
   fun f => if f = "name" then some (.str "Widget")
            else if f = "category" then some (.model 1) else Option.none,
   ["name", "category"]⟩

/-- The category record of the spec's end-to-end examples. -/
def wRec1 : Record :=
  ⟨.int 2, fun f => if f = "label" then some (.str "Tools") else Option.none, ["label"]⟩

/-- Environment of the spec's end-to-end examples. -/
def envW : Env := fun n => if n = 0 then wRec0 else wRec1

theorem c5_amended_witness :
    docClean [("pk", DocVal.pyv (.int 7)), ("name", .pyv (.str "Widget")),
      ("category", .nested [("pk", .pyv (.int 2)), ("label", .pyv (.str "Tools"))])] = true :=
  c5_amended envW 2 (.model 0)
    (.dict [("category", .obj Option.none Option.none Option.none)])
    (.tuple []) (.tuple []) false _ (by decide) (by decide) rfl

/-! ## Claim C4: the classification policy -/

/-- Spec-side policy (amended claim) for a declared-field value: (1) a
single-valued relation becomes its pk; (2) a temporal value is stored
unconverted; (3) a callable is invoked once and its result passes only
through steps (4)-(5) - a Model or temporal result is stored as its repr,
not as a pk or unconverted; (4) an atomic scalar is stored as-is; (5)
anything else is stored as its repr. -/
def amendedFieldPolicy (env : Env) : PyVal → DocVal
  | .model r => .pyv (env r).pk
  | .datetime u => .pyv (.datetime u)
  | .callablev w => if isSimple w then .pyv w else .pyv (.str (reprPy w))
  | v => if isSimple v then .pyv v else .pyv (.str (reprPy v))

/-- Spec-side policy (amended claim) for an extra value: steps (1)-(2) are
skipped entirely - a callable is invoked first, then an atomic scalar is
stored as-is and anything else (including relations and temporal values)
as its repr. -/
def amendedExtraPolicy : PyVal → DocVal
  | .callablev w => if isSimple w then .pyv w else .pyv (.str (reprPy w))
  | v => if isSimple v then .pyv v else .pyv (.str (reprPy v))

theorem classifyField_eq_amended (env : Env) (v : PyVal) :
    classifyField env v = amendedFieldPolicy env v := by
  cases v <;> rfl

theorem extraStored_eq_amended (v : PyVal) :
    (if isSimple (callIf v) then DocVal.pyv (callIf v)
     else DocVal.pyv (.str (reprPy (callIf v)))) = amendedExtraPolicy v := by
  cases v <;> rfl

theorem get_values_single_field (env : Env) (rid : RecordId) (f : String) (v : PyVal)
    (hn : (env rid).fieldNames = [f]) (ha : getattr (env rid) f = some v)
    (hf : keyPrefixed f = false) (hm : isManager v = false) :
    get_values env 1 (.model rid) (.dict []) (.tuple []) (.tuple []) false =
      some (.ok (dinsert [("pk", DocVal.pyv (env rid).pk)] f (classifyField env v))) := by
  have step : get_values env 1 (.model rid) (.dict []) (.tuple []) (.tuple []) false =
      fieldLoop env (get_values env 0) (env rid) [] [] false (env rid).fieldNames
        [("pk", DocVal.pyv (env rid).pk)] := rfl
  rw [step, hn, fieldLoop]
  simp only [ha]
  rw [if_neg (by simp : ¬((false : Bool) = true ∧ v = PyVal.none))]
  rw [if_neg (by simp [hf, hm] : ¬(f ∈ ([] : List String) ∨ keyPrefixed f = true ∨ isManager v = true))]
  simp only [dlookup]
  rfl

theorem get_values_single_extra (env : Env) (rid : RecordId) (f : String) (v : PyVal)
    (hn : (env rid).fieldNames = []) (ha : getattr (env rid) f = some v) :
    get_values env 1 (.model rid) (.dict []) (.tuple []) (.tuple [f]) false =
      some (.ok (dinsert [("pk", DocVal.pyv (env rid).pk)] f
        (if isSimple (callIf v) then DocVal.pyv (callIf v)
         else DocVal.pyv (.str (reprPy (callIf v)))))) := by
  have hstep : extraStep (env rid) false [("pk", DocVal.pyv (env rid).pk)] f =
      some (dinsert [("pk", DocVal.pyv (env rid).pk)] f
        (if isSimple (callIf v) then DocVal.pyv (callIf v)
         else DocVal.pyv (.str (reprPy (callIf v))))) := by
    rw [extraStep]
    simp only [ha]
    rw [if_neg (by simp : ¬((false : Bool) = true ∧ callIf v = PyVal.none))]
    cases hs : isSimple (callIf v)
    · simp [hs]
    · simp [hs]
  have hloop : extraLoop (env rid) false [f] [("pk", DocVal.pyv (env rid).pk)] =
      some (dinsert [("pk", DocVal.pyv (env rid).pk)] f
        (if isSimple (callIf v) then DocVal.pyv (callIf v)
         else DocVal.pyv (.str (reprPy (callIf v))))) := by
    rw [extraLoop, hstep]
    rfl
  have step : get_values env 1 (.model rid) (.dict []) (.tuple []) (.tuple [f]) false =
      (match extraLoop (env rid) false [f] [("pk", DocVal.pyv (env rid).pk)] with
       | Option.none => some (.error PyErr.attributeError)
       | some doc0 =>
         fieldLoop env (get_values env 0) (env rid) [] [] false (env rid).fieldNames doc0) := rfl
  rw [step, hloop, hn]
  rfl

/-- C4, amended: for a declared field the classification applied in the
source is (1) relation to pk, (2) temporal unconverted, (3) callable
invoked once with its result passing only through steps (4)-(5) - so a
callable returning a relation or temporal value is stored as its repr, not
reclassified by (1)-(2) - then (4) scalar as-is, (5) repr fallback.  An
extra value skips steps (1)-(2) altogether: it is invoked if callable and
then stored as-is when scalar and as its repr otherwise, so a relation
resolved through extra is stored as its repr, not as its pk, and a
temporal extra value is stored as repr, not unconverted. -/
theorem c4_amended (env : Env) (ridF ridX : RecordId) (f : String) (v : PyVal)
    (hnF : (env ridF).fieldNames = [f]) (haF : getattr (env ridF) f = some v)
    (hf : keyPrefixed f = false) (hm : isManager v = false)
    (hnX : (env ridX).fieldNames = []) (haX : getattr (env ridX) f = some v) :
    (∃ doc, get_values env 1 (.model ridF) (.dict []) (.tuple []) (.tuple []) false =
        some (.ok doc) ∧ dlookup doc f = some (amendedFieldPolicy env v))
    ∧ (∃ doc, get_values env 1 (.model ridX) (.dict []) (.tuple []) (.tuple [f]) false =
        some (.ok doc) ∧ dlookup doc f = some (amendedExtraPolicy v)) := by
  constructor
  · refine ⟨_, get_values_single_field env ridF f v hnF haF hf hm, ?_⟩
    rw [dlookup_dinsert_self, classifyField_eq_amended]
  · refine ⟨_, get_values_single_extra env ridX f v hnX haX, ?_⟩
    rw [dlookup_dinsert_self, extraStored_eq_amended]

/-- Record whose field c holds a callable returning a relation. -/
def recC4F : Record :=
  ⟨.int 1, fun g => if g = "c" then some (.callablev (.model 1)) else Option.none, ["c"]⟩

/-- Record whose accessor c (not a declared field) holds the same
callable. -/
def recC4X : Record :=
  ⟨.int 3, fun g => if g = "c" then some (.callablev (.model 1)) else Option.none, []⟩

/-- Environment for the C4 witness. -/
def envC4 : Env := fun n => if n = 0 then recC4F else if n = 1 then recC4X else recC4F

theorem c4_amended_witness :
    (∃ doc, get_values envC4 1 (.model 0) (.dict []) (.tuple []) (.tuple []) false =
        some (.ok doc) ∧ dlookup doc "c" = some (amendedFieldPolicy envC4 (.callablev (.model 1))))
    ∧ (∃ doc, get_values envC4 1 (.model 1) (.dict []) (.tuple []) (.tuple ["c"]) false =
        some (.ok doc) ∧ dlookup doc "c" = some (amendedExtraPolicy (.callablev (.model 1)))) :=
  c4_amended envC4 0 1 "c" (.callablev (.model 1)) rfl rfl rfl rfl rfl rfl

/-- Record with a single extra accessor resolving to a temporal value. -/
def recT : Record :=
  ⟨.int 1, fun g => if g = "when" then some (.datetime 0) else Option.none, []⟩

/-- Environment for the C4 counterexample. -/
def envT : Env := fun _ => recT

/-- C4 counterexample: an extra accessor resolving to a temporal value is
stored as its opaque repr text, although the claim's classification order
(step 2 before any scalar/repr fallback) requires it to be stored
unconverted; so the uniform policy the claim states for extra values is
false on the code. -/
theorem c4_counterexample :
    get_values envT 1 (.model 0) (.dict []) (.tuple []) (.tuple ["when"]) false =
      some (.ok [("pk", .pyv (.int 1)), ("when", .pyv (.str "<datetime 0>"))])
    ∧ PyVal.str "<datetime 0>" ≠ PyVal.datetime 0 := ⟨rfl, by decide⟩

/-! ## Claim C6: totality of serialization on valid, cycle-free input -/

/-- Spec-side validity of the extra names for a record: every named
accessor resolves (the source does not guard getattr in the extra
loop). -/
def extrasOk (r : Record) (xs : List String) : Bool :=
  xs.all (fun f => (getattr r f).isSome)

/-- Spec-side validity of one declared field under a go_into
configuration: a field skipped by the source (failing accessor,
skip_none, exclusion, underscore, multi-valued relation, or simply not
expanded) is always fine; a field that reaches the recursive go_into call
must be valid for the nested traversal (vrec), which in particular forces
it to hold a single-valued relation. -/
def fieldOk1 (vrec : PyVal → GoInto → ExVal → ExVal → Bool → Bool)
    (r : Record) (gis : List (String × GoVal)) (exL : List String) (sn : Bool)
    (f : String) : Bool :=
  match getattr r f with
  | Option.none => true
  | some p =>
    if sn ∧ p = PyVal.none then true
    else if f ∈ exL ∨ keyPrefixed f = true ∨ isManager p = true then true
    else
      match dlookup gis f with
      | some gv => vrec p (gvGoInto gv) (gvExclude gv) (gvExtra gv) sn
      | Option.none => true

/-- fieldOk1 over a list of field names. -/
def fieldsOk (vrec : PyVal → GoInto → ExVal → ExVal → Bool → Bool)
    (r : Record) (gis : List (String × GoVal)) (exL : List String) (sn : Bool) :
    List String → Bool
  | [] => true
  | f :: rest => fieldOk1 vrec r gis exL sn f && fieldsOk vrec r gis exL sn rest

/-- Spec-side validity of a serialization call (the Record capability plus
a valid TraversalSpec), with the same fuel discipline as get_values (the
tree form of the go_into argument already rules out relation cycles): the
instance is a Model, no extra name fails to resolve, neither the reflected
field list nor the extra names contain the pk alias (Django reflection
never lists it, and extras denote non-field accessors), and every field
expanded through go_into is recursively valid. -/
def validCall (env : Env) : Nat → PyVal → GoInto → ExVal → ExVal → Bool → Bool
  | 0, _, _, _, _, _ => false
  | fuel + 1, inst, gi, ex, xt, sn =>
    match inst with
    | .model rid =>
      let r := env rid
      extrasOk r (normEx xt) && decide ("pk" ∉ normEx xt) &&
        decide ("pk" ∉ r.fieldNames) &&
        fieldsOk (validCall env fuel) r (normGo gi) (normEx ex) sn r.fieldNames
    | _ => false

theorem extraLoop_ok (r : Record) (sn : Bool) :
    ∀ (xs : List String) (doc : Doc) (v : DocVal),
      extrasOk r xs = true → "pk" ∉ xs → dlookup doc "pk" = some v →
      ∃ d', extraLoop r sn xs doc = some d' ∧ dlookup d' "pk" = some v := by
  intro xs
  induction xs with
  | nil => intro doc v _ _ hd; exact ⟨doc, rfl, hd⟩
  | cons f rest ih =>
    intro doc v hok hpk hd
    have hok' : ((getattr r f).isSome && extrasOk r rest) = true := hok
    rw [Bool.and_eq_true] at hok'
    simp only [List.mem_cons, not_or] at hpk
    rw [extraLoop]
    cases hga : getattr r f with
    | none => rw [hga] at hok'; simp at hok'
    | some p0 =>
      have hstep : ∃ d0, extraStep r sn doc f = some d0 ∧ dlookup d0 "pk" = some v := by
        rw [extraStep]
        simp only [hga]
        by_cases h1 : sn ∧ callIf p0 = PyVal.none
        · rw [if_pos h1]; exact ⟨doc, rfl, hd⟩
        · rw [if_neg h1]
          by_cases h2 : isSimple (callIf p0) = true
          · rw [if_pos h2]
            exact ⟨_, rfl, by rw [dlookup_dinsert_ne _ _ _ _ hpk.1]; exact hd⟩
          · rw [if_neg h2]
            exact ⟨_, rfl, by rw [dlookup_dinsert_ne _ _ _ _ hpk.1]; exact hd⟩
      obtain ⟨d0, hs0, hp0⟩ := hstep
      rw [hs0]
      exact ih d0 v hok'.2 hpk.2 hp0

theorem fieldLoop_ok (env : Env)
    (recurse : PyVal → GoInto → ExVal → ExVal → Bool → Option (Except PyErr Doc))
    (vrec : PyVal → GoInto → ExVal → ExVal → Bool → Bool)
    (r : Record) (gis : List (String × GoVal)) (exL : List String) (sn : Bool)
    (Hrec : ∀ p gi2 ex2 xt2, vrec p gi2 ex2 xt2 sn = true →
        ∃ sub, recurse p gi2 ex2 xt2 sn = some (.ok sub)) :
    ∀ (fields : List String) (doc : Doc) (v : DocVal),
      fieldsOk vrec r gis exL sn fields = true → "pk" ∉ fields →
      dlookup doc "pk" = some v →
      ∃ d', fieldLoop env recurse r gis exL sn fields doc = some (.ok d') ∧
        dlookup d' "pk" = some v := by
  intro fields
  induction fields with
  | nil => intro doc v _ _ hd; exact ⟨doc, rfl, hd⟩
  | cons f rest ih =>
    intro doc v hok hpk hd
    have hok' : (fieldOk1 vrec r gis exL sn f && fieldsOk vrec r gis exL sn rest) = true := hok
    rw [Bool.and_eq_true] at hok'
    simp only [List.mem_cons, not_or] at hpk
    rw [fieldLoop]
    cases hga : getattr r f with
    | none => simp only [hga]; exact ih doc v hok'.2 hpk.2 hd
    | some p =>
      simp only [hga]
      by_cases h1 : sn ∧ p = PyVal.none
      · rw [if_pos h1]; exact ih doc v hok'.2 hpk.2 hd
      · rw [if_neg h1]
        by_cases h2 : f ∈ exL ∨ keyPrefixed f = true ∨ isManager p = true
        · rw [if_pos h2]; exact ih doc v hok'.2 hpk.2 hd
        · rw [if_neg h2]
          cases hlk : dlookup gis f with
          | none =>
            simp only [hlk]
            exact ih _ v hok'.2 hpk.2 (by rw [dlookup_dinsert_ne _ _ _ _ hpk.1]; exact hd)
          | some gv =>
            simp only [hlk]
            have hv : vrec p (gvGoInto gv) (gvExclude gv) (gvExtra gv) sn = true := by
              have hh := hok'.1
              rw [fieldOk1] at hh
              simp only [hga] at hh
              rw [if_neg h1, if_neg h2] at hh
              simp only [hlk] at hh
              exact hh
            obtain ⟨sub, hsub⟩ := Hrec p _ _ _ hv
            rw [hsub]
            exact ih _ v hok'.2 hpk.2 (by rw [dlookup_dinsert_ne _ _ _ _ hpk.1]; exact hd)

/-- C6: on every record satisfying the Record capability and every valid
TraversalSpec (validCall; the tree-shaped go_into argument already
excludes relation cycles), get_values raises nothing and returns a
document whose pk entry is the record's primary key. -/
theorem c6_serialize_total (env : Env) :
    ∀ (fuel : Nat) (inst : PyVal) (gi : GoInto) (ex xt : ExVal) (sn : Bool),
      validCall env fuel inst gi ex xt sn = true →
      ∃ rid doc, inst = .model rid ∧
        get_values env fuel inst gi ex xt sn = some (Except.ok doc) ∧
        dlookup doc "pk" = some (.pyv (env rid).pk) := by
  intro fuel
  induction fuel with
  | zero =>
    intro inst gi ex xt sn h
    exact absurd (show (false : Bool) = true from h) (by simp)
  | succ fuel ih =>
    intro inst gi ex xt sn h
    cases inst with
    | model rid =>
      have h' : (extrasOk (env rid) (normEx xt) && decide ("pk" ∉ normEx xt) &&
          decide ("pk" ∉ (env rid).fieldNames) &&
          fieldsOk (validCall env fuel) (env rid) (normGo gi) (normEx ex) sn
            (env rid).fieldNames) = true := h
      simp only [Bool.and_eq_true, decide_eq_true_eq] at h'
      obtain ⟨⟨⟨hx, hpk1⟩, hpk2⟩, hfs⟩ := h'
      obtain ⟨doc0, hloop, hp0⟩ := extraLoop_ok (env rid) sn (normEx xt)
        [("pk", .pyv (env rid).pk)] (.pyv (env rid).pk) hx hpk1 (by simp [dlookup])
      obtain ⟨doc, hfl, hp⟩ := fieldLoop_ok env (get_values env fuel) (validCall env fuel)
        (env rid) (normGo gi) (normEx ex) sn
        (fun p gi2 ex2 xt2 hv => by
          obtain ⟨rid2, doc2, _, hgv, _⟩ := ih p gi2 ex2 xt2 sn hv
          exact ⟨doc2, hgv⟩)
        (env rid).fieldNames doc0 (.pyv (env rid).pk) hfs hpk2 hp0
      refine ⟨rid, doc, rfl, ?_, hp⟩
      have step : get_values env (fuel + 1) (.model rid) gi ex xt sn =
          (match extraLoop (env rid) sn (normEx xt) [("pk", DocVal.pyv (env rid).pk)] with
           | Option.none => some (.error PyErr.attributeError)
           | some d0 => fieldLoop env (get_values env fuel) (env rid) (normGo gi)
               (normEx ex) sn (env rid).fieldNames d0) := rfl
      rw [step, hloop]
      exact hfl
    | none => exact absurd (show (false : Bool) = true from h) (by simp)
    | int n => exact absurd (show (false : Bool) = true from h) (by simp)
    | str s => exact absurd (show (false : Bool) = true from h) (by simp)
    | bool b => exact absurd (show (false : Bool) = true from h) (by simp)
    | float u => exact absurd (show (false : Bool) = true from h) (by simp)
    | listv u => exact absurd (show (false : Bool) = true from h) (by simp)
    | dictv u => exact absurd (show (false : Bool) = true from h) (by simp)
    | tuplev u => exact absurd (show (false : Bool) = true from h) (by simp)
    | datetime u => exact absurd (show (false : Bool) = true from h) (by simp)
    | manager u => exact absurd (show (false : Bool) = true from h) (by simp)
    | callablev w => exact absurd (show (false : Bool) = true from h) (by simp)
    | other r => exact absurd (show (false : Bool) = true from h) (by simp)

theorem c6_serialize_total_witness :
    validCall envW 2 (.model 0)
      (.dict [("category", .obj Option.none Option.none Option.none)])
      (.tuple []) (.tuple []) false = true
    ∧ ∃ rid doc, (PyVal.model 0 : PyVal) = .model rid ∧
        get_values envW 2 (.model 0)
          (.dict [("category", .obj Option.none Option.none Option.none)])
          (.tuple []) (.tuple []) false = some (Except.ok doc) ∧
        dlookup doc "pk" = some (.pyv (envW rid).pk) :=
  ⟨by decide,
   c6_serialize_total envW 2 (.model 0)
     (.dict [("category", .obj Option.none Option.none Option.none)])
     (.tuple []) (.tuple []) false (by decide)⟩

/-! ## Claims C2 and C7: construction and the total property -/

theorem total_memoized (s : ResultSet) (t : RVal) (s1 : ResultSet)
    (h : ResultSet.total s = (.ok t, s1)) : ResultSet.total s1 = (.ok t, s1) := by
  have hmem : s1.totalMemo = some t := by
    rw [ResultSet.total] at h
    cases hm : s.totalMemo with
    | some t0 =>
      simp only [hm] at h
      injection h with h1 h2
      injection h1 with h1
      rw [← h2, hm, h1]
    | none =>
      simp only [hm] at h
      by_cases hv : s.valid = true
      · simp only [hv, if_true] at h
        cases hr : s.results with
        | dict es =>
          simp only [hr] at h
          injection h with h1 h2
          injection h1 with h1
          rw [← h2, h1]
        | list xs =>
          simp only [hr] at h
          injection h with h1 h2
          exact absurd h1 (by simp)
        | str s0 =>
          simp only [hr] at h
          injection h with h1 h2
          exact absurd h1 (by simp)
        | int n =>
          simp only [hr] at h
          injection h with h1 h2
          exact absurd h1 (by simp)
        | bool b =>
          simp only [hr] at h
          injection h with h1 h2
          exact absurd h1 (by simp)
        | null =>
          simp only [hr] at h
          injection h with h1 h2
          exact absurd h1 (by simp)
      · rw [if_neg hv] at h
        injection h with h1 h2
        injection h1 with h1
        rw [← h2, h1]
  rw [ResultSet.total]
  simp only [hmem]

/-- C2, amended: constructing a ResultSet never raises when the raw
mapping lacks a hits key, whatever the two flags: it degrades silently to
valid false, total 0, facets still extracted if present.  (When a hits key
is present, fix_keys and clean_highlight subscript and iterate the hits
sub-structure, so a malformed one - for example a hits mapping without an
inner hits sequence - makes construction raise instead of degrading.) -/
theorem c2_amended (raw : List (String × RVal)) (fk ch : Bool)
    (h : dlookup raw "hits" = Option.none) :
    ∃ s, ResultSet.init raw fk ch = .ok (s, raw) ∧ s.valid = false ∧
      (ResultSet.total s).1 = .ok (.int 0) ∧
      s.facets = (dlookup raw "facets").getD (.dict []) := by
  refine ⟨⟨.dict raw, false, (dlookup raw "facets").getD (.dict []), Option.none⟩,
    ?_, rfl, rfl, rfl⟩
  rw [ResultSet.init]
  simp only [h]

theorem c2_amended_witness :
    ∃ s, ResultSet.init [("facets", RVal.dict [("f", RVal.int 1)])] true true =
        .ok (s, [("facets", RVal.dict [("f", RVal.int 1)])]) ∧ s.valid = false ∧
      (ResultSet.total s).1 = .ok (.int 0) ∧
      s.facets = (dlookup [("facets", RVal.dict [("f", RVal.int 1)])] "facets").getD (.dict []) :=
  c2_amended [("facets", RVal.dict [("f", RVal.int 1)])] true true rfl

/-- C2 counterexample: a raw response mapping whose hits value is an
empty mapping makes construction (with fix_keys enabled) raise KeyError
when fix_keys subscripts the missing inner hits sequence, instead of
degrading silently; so construction does not avoid raising on every raw
response mapping. -/
theorem c2_counterexample :
    ResultSet.init [("hits", RVal.dict [])] true true = .error .keyError := rfl

/-- C7, amended: valid is true iff the raw mapping contains a hits key;
totalMemo is unset by construction (the total is computed lazily); when
invalid the total is 0 and is memoized; when valid and the (possibly
mutated) working hits structure is a mapping, the total is its total entry
(0 if absent), memoized; and a memoized total is returned unchanged by
later accesses.  (When the hits value is present but not a mapping, the
first access to total raises instead of returning a number, and memoizes
0; the claim's clause that total then equals the total entry of the hits
sub-structure does not apply to the code.) -/
theorem c7_amended (raw : List (String × RVal)) (fk ch : Bool) (s : ResultSet)
    (post : List (String × RVal)) (h : ResultSet.init raw fk ch = .ok (s, post)) :
    (s.valid = true ↔ (dlookup raw "hits").isSome = true)
    ∧ s.totalMemo = Option.none
    ∧ (s.valid = false → ResultSet.total s =
        (.ok (.int 0), ⟨s.results, s.valid, s.facets, some (.int 0)⟩))
    ∧ (∀ es, s.valid = true → s.results = RVal.dict es →
        ResultSet.total s = (.ok ((dlookup es "total").getD (.int 0)),
          ⟨s.results, s.valid, s.facets, some ((dlookup es "total").getD (.int 0))⟩))
    ∧ (∀ t s1, ResultSet.total s = (.ok t, s1) → ResultSet.total s1 = (.ok t, s1)) := by
  rw [ResultSet.init] at h
  cases hh : dlookup raw "hits" with
  | none =>
    simp only [hh] at h
    injection h with h
    injection h with hs hpost
    subst hs
    refine ⟨by simp [hh], rfl, fun _ => rfl, ?_, fun t s1 ht => total_memoized _ t s1 ht⟩
    intro es hv hr
    exact absurd hv (by simp)
  | some hv0 =>
    simp only [hh] at h
    cases hfix : (if fk then fix_keys hv0 else Except.ok hv0) with
    | error e => simp only [hfix] at h; exact absurd h (by simp)
    | ok h1 =>
      simp only [hfix] at h
      cases hcl : (if ch then clean_highlight h1 else Except.ok h1) with
      | error e => simp only [hcl] at h; exact absurd h (by simp)
      | ok h2 =>
        simp only [hcl] at h
        injection h with h
        injection h with hs hpost
        subst hs
        refine ⟨by simp [hh], rfl, ?_, ?_, fun t s1 ht => total_memoized _ t s1 ht⟩
        · intro hvf
          exact absurd hvf (by simp)
        · intro es hv hr
          have hr' : h2 = RVal.dict es := hr
          subst hr'
          rfl

theorem c7_amended_witness :
    ((⟨RVal.dict [("total", RVal.int 2), ("hits", RVal.list [])], true,
        RVal.dict [], Option.none⟩ : ResultSet).valid = true ↔
      (dlookup [("hits", RVal.dict [("total", RVal.int 2), ("hits", RVal.list [])])]
        "hits").isSome = true)
    ∧ (⟨RVal.dict [("total", RVal.int 2), ("hits", RVal.list [])], true,
        RVal.dict [], Option.none⟩ : ResultSet).totalMemo = Option.none
    ∧ ((⟨RVal.dict [("total", RVal.int 2), ("hits", RVal.list [])], true,
        RVal.dict [], Option.none⟩ : ResultSet).valid = false →
        ResultSet.total ⟨RVal.dict [("total", RVal.int 2), ("hits", RVal.list [])], true,
          RVal.dict [], Option.none⟩ =
        (.ok (.int 0), ⟨RVal.dict [("total", RVal.int 2), ("hits", RVal.list [])], true,
          RVal.dict [], some (.int 0)⟩))
    ∧ (∀ es, (⟨RVal.dict [("total", RVal.int 2), ("hits", RVal.list [])], true,
        RVal.dict [], Option.none⟩ : ResultSet).valid = true →
        (⟨RVal.dict [("total", RVal.int 2), ("hits", RVal.list [])], true,
          RVal.dict [], Option.none⟩ : ResultSet).results = RVal.dict es →
        ResultSet.total ⟨RVal.dict [("total", RVal.int 2), ("hits", RVal.list [])], true,
          RVal.dict [], Option.none⟩ =
        (.ok ((dlookup es "total").getD (.int 0)),
          ⟨RVal.dict [("total", RVal.int 2), ("hits", RVal.list [])], true,
            RVal.dict [], some ((dlookup es "total").getD (.int 0))⟩))
    ∧ (∀ t s1, ResultSet.total ⟨RVal.dict [("total", RVal.int 2), ("hits", RVal.list [])],
          true, RVal.dict [], Option.none⟩ = (.ok t, s1) →
        ResultSet.total s1 = (.ok t, s1)) :=
  c7_amended [("hits", RVal.dict [("total", RVal.int 2), ("hits", RVal.list [])])]
    false false
    ⟨RVal.dict [("total", RVal.int 2), ("hits", RVal.list [])], true, RVal.dict [], Option.none⟩
    [("hits", RVal.dict [("total", RVal.int 2), ("hits", RVal.list [])])] rfl

/-- C7 counterexample: a raw response mapping whose hits value is not a
mapping constructs fine (with both passes disabled) and is valid, but the
first access to total raises AttributeError instead of yielding the total
entry of a hits sub-structure (0 if absent) as the claim states. -/
theorem c7_counterexample :
    ResultSet.init [("hits", RVal.int 5)] false false =
      .ok (⟨.int 5, true, .dict [], Option.none⟩, [("hits", RVal.int 5)])
    ∧ (ResultSet.total ⟨.int 5, true, .dict [], Option.none⟩).1 =
        .error .attributeError := ⟨rfl, rfl⟩

/-! ## Claim C8: idempotence of the fix_keys renaming -/

theorem mem_dinsert {α : Type} (d : List (String × α)) (k : String) (v : α)
    (p : String × α) (h : p ∈ dinsert d k v) : p = (k, v) ∨ p ∈ d := by
  induction d with
  | nil => simp [dinsert] at h; simp [h]
  | cons q rest ih =>
    obtain ⟨k0, v0⟩ := q
    rw [dinsert] at h
    by_cases h0 : k0 = k
    · rw [if_pos h0] at h
      rcases List.mem_cons.mp h with h1 | h1
      · exact Or.inl h1
      · exact Or.inr (List.mem_cons_of_mem _ h1)
    · rw [if_neg h0] at h
      rcases List.mem_cons.mp h with h1 | h1
      · exact Or.inr (h1 ▸ List.mem_cons_self _ _)
      · rcases ih h1 with h2 | h2
        · exact Or.inl h2
        · exact Or.inr (List.mem_cons_of_mem _ h2)

theorem mem_ddel {α : Type} (d : List (String × α)) (k : String) (p : String × α) :
    p ∈ ddel d k ↔ p ∈ d ∧ p.1 ≠ k := by
  rw [ddel]
  simp [List.mem_filter]

theorem fixFold_clean :
    ∀ (s d : List (String × RVal)),
      (∀ p ∈ s, keyPrefixed p.1 = true → keyPrefixed (keyStrip p.1) = false) →
      (∀ p ∈ d, keyPrefixed p.1 = true → p.1 ∈ s.map Prod.fst) →
      ∀ q ∈ s.foldl fixStep d, keyPrefixed q.1 = false := by
  intro s
  induction s with
  | nil =>
    intro d _ hd q hq
    cases hk : keyPrefixed q.1 with
    | false => rfl
    | true => exact absurd (hd q hq hk) (by simp)
  | cons kv s' ih =>
    intro d hs hd q hq
    obtain ⟨k0, v0⟩ := kv
    have hs' : ∀ p ∈ s', keyPrefixed p.1 = true → keyPrefixed (keyStrip p.1) = false :=
      fun p hp => hs p (List.mem_cons_of_mem _ hp)
    rw [List.foldl_cons] at hq
    refine ih (fixStep d (k0, v0)) hs' ?_ q hq
    intro p hp hpk
    rw [fixStep] at hp
    by_cases h0 : keyPrefixed (k0, v0).1 = true
    · rw [if_pos h0] at hp
      rw [mem_ddel] at hp
      obtain ⟨hp1, hp2⟩ := hp
      rcases mem_dinsert _ _ _ _ hp1 with h1 | h1
      · exfalso
        have := hs (k0, v0) (List.mem_cons_self _ _) h0
        rw [h1] at hpk
        exact absurd hpk (by simp [this])
      · have hmem := hd p h1 hpk
        rw [List.map_cons] at hmem
        rcases List.mem_cons.mp hmem with h2 | h2
        · exact absurd h2 hp2
        · exact h2
    · rw [if_neg h0] at hp
      have hmem := hd p hp hpk
      rw [List.map_cons] at hmem
      rcases List.mem_cons.mp hmem with h2 | h2
      · exfalso
        rw [h2] at hpk
        exact h0 hpk
      · exact h2

theorem fixFold_noop :
    ∀ (s d : List (String × RVal)),
      (∀ p ∈ s, keyPrefixed p.1 = false) → s.foldl fixStep d = d := by
  intro s
  induction s with
  | nil => intro d _; rfl
  | cons kv s' ih =>
    intro d hs
    rw [List.foldl_cons, fixStep, if_neg (by simp [hs kv (List.mem_cons_self _ _)])]
    exact ih d (fun p hp => hs p (List.mem_cons_of_mem _ hp))

/-- C8, amended: the fix_keys renaming of one hit is idempotent - one
application removes every prefixed key and a second changes nothing at
all - provided stripping one underscore from a prefixed key never leaves
another prefixed key (no key starts with two underscores).  A key of the
form double-underscore name is renamed to a still-prefixed key by the
first pass and renamed again by the second, so the proviso is necessary
(see the counterexample). -/
theorem c8_amended (h : List (String × RVal))
    (hk : ∀ p ∈ h, keyPrefixed p.1 = true → keyPrefixed (keyStrip p.1) = false) :
    fixHit (fixHit h) = fixHit h := by
  have hclean : ∀ q ∈ fixHit h, keyPrefixed q.1 = false := by
    intro q hq
    refine fixFold_clean h h hk ?_ q hq
    intro p hp _
    exact List.mem_map.mpr ⟨p, hp, rfl⟩
  rw [fixHit]
  exact fixFold_noop (fixHit h) (fixHit h) hclean

theorem c8_amended_witness :
    fixHit (fixHit [("_id", RVal.str "a"), ("title", RVal.int 3)]) =
      fixHit [("_id", RVal.str "a"), ("title", RVal.int 3)] :=
  c8_amended [("_id", RVal.str "a"), ("title", RVal.int 3)] (by decide)

/-- C8 counterexample: on a hit whose key starts with two underscores the
first fix_keys pass strips only one of them, leaving a prefixed key that a
second pass renames again - the key set after two applications differs
from the key set after one, so the renaming is not idempotent for every
hit. -/
theorem c8_counterexample :
    fixHit [("__x", RVal.int 1)] = [("_x", RVal.int 1)]
    ∧ fixHit (fixHit [("__x", RVal.int 1)]) = [("x", RVal.int 1)]
    ∧ ¬ (List.map Prod.fst (fixHit (fixHit [("__x", RVal.int 1)])) =
         List.map Prod.fst (fixHit [("__x", RVal.int 1)])) :=
  ⟨rfl, rfl, by decide⟩

/-! ## Claim C10: construction mutates the caller's raw mapping -/

/-- A raw response in the shape of the spec's end-to-end example 3: one
hit with two backend-prefixed keys and a highlight block containing one
empty and one non-empty entry. -/
def raw3 : List (String × RVal) :=
  [("hits", .dict [("total", .int 2),
    ("hits", .list [.dict [("_id", .str "a"), ("_score", .int 1),
      ("highlight", .dict [("title", .list []), ("body", .list [.str "x"])])]])])]

/-- The caller's mapping after constructing a ResultSet over raw3 with
both passes enabled: the prefixed keys of the hit are gone, their
unprefixed counterparts are present, and the falsy highlight entry has
been deleted - inside the caller's own structure. -/
def post3 : List (String × RVal) :=
  [("hits", .dict [("total", .int 2),
    ("hits", .list [.dict [("highlight", .dict [("body", .list [.str "x"])]),
      ("id", .str "a"), ("score", .int 1)]])])]

/-- The ResultSet state constructed over raw3. -/
def state3 : ResultSet :=
  ⟨.dict [("total", .int 2),
    ("hits", .list [.dict [("highlight", .dict [("body", .list [.str "x"])]),
      ("id", .str "a"), ("score", .int 1)]])],
   true, .dict [], Option.none⟩

/-- The key list of the first hit inside a response mapping; an observer
for the caller's structure. -/
def firstHitKeys (raw : List (String × RVal)) : Option (List String) :=
  match dlookup raw "hits" with
  | some (.dict hs) =>
    match dlookup hs "hits" with
    | some (.list (RVal.dict h :: _)) => some (h.map Prod.fst)
    | _ => Option.none
  | _ => Option.none

/-- C10: the constructor operates on the caller's mapping, not on a copy.
In the explicit-state embedding of Python's reference semantics, the
caller's mapping after a successful construction is the original mapping
with its hits value replaced by the constructor's own working structure
(the structure fix_keys and clean_highlight mutated in place, and which
the results attribute aliases); when the mapping has no hits key nothing
is touched.  Concretely, constructing over raw3 with both flags enabled
leaves the caller's hit with renamed keys and a pruned highlight block, so
the original raw mapping is observably changed. -/
theorem c10_in_place_mutation :
    (∀ (raw : List (String × RVal)) (fk ch : Bool) (s : ResultSet)
        (post : List (String × RVal)),
      ResultSet.init raw fk ch = .ok (s, post) →
      ((dlookup raw "hits").isSome = true → post = dinsert raw "hits" s.results)
      ∧ (dlookup raw "hits" = Option.none → post = raw))
    ∧ ResultSet.init raw3 true true = .ok (state3, post3)
    ∧ firstHitKeys post3 ≠ firstHitKeys raw3 := by
  refine ⟨?_, rfl, by decide⟩
  intro raw fk ch s post h
  rw [ResultSet.init] at h
  cases hh : dlookup raw "hits" with
  | none =>
    simp only [hh] at h
    injection h with h
    injection h with hs hpost
    exact ⟨fun hsome => absurd hsome (by simp), fun _ => hpost.symm⟩
  | some hv0 =>
    simp only [hh] at h
    cases hfix : (if fk then fix_keys hv0 else Except.ok hv0) with
    | error e => simp only [hfix] at h; exact absurd h (by simp)
    | ok h1 =>
      simp only [hfix] at h
      cases hcl : (if ch then clean_highlight h1 else Except.ok h1) with
      | error e => simp only [hcl] at h; exact absurd h (by simp)
      | ok h2 =>
        simp only [hcl] at h
        injection h with h
        injection h with hs hpost
        subst hs
        exact ⟨fun _ => hpost.symm, fun hnone => Option.noConfusion hnone⟩

theorem c10_in_place_mutation_witness :
    (dlookup raw3 "hits").isSome = true ∧ post3 = dinsert raw3 "hits" state3.results :=
  ⟨rfl, (c10_in_place_mutation.1 raw3 true true state3 post3 rfl).1 rfl⟩

/-! ## Claim C3: the identifier-encoding round trip -/

/-- The pad-free part of the encoding: the alphabet characters of
urlsafe_b64encode without the trailing pad characters. -/
def b64body : List Nat → List Char
  | b0 :: b1 :: b2 :: rest =>
    b64char (b0 / 4) :: b64char (b0 % 4 * 16 + b1 / 16) ::
      b64char (b1 % 16 * 4 + b2 / 64) :: b64char (b2 % 64) :: b64body rest
  | [b0, b1] => [b64char (b0 / 4), b64char (b0 % 4 * 16 + b1 / 16), b64char (b1 % 16 * 4)]
  | [b0] => [b64char (b0 / 4), b64char (b0 % 4 * 16)]
  | [] => []

/-- Number of pad characters urlsafe_b64encode appends. -/
def padLen (n : Nat) : Nat := (3 - n % 3) % 3

theorem b64_char_roundtrip : ∀ v < 64, b64val (urlTranslate (b64char v)) = some v := by decide

theorem b64char_ne_pad : ∀ v < 64, b64char v ≠ '=' := by decide

theorem encode_split (s : List Nat) :
    urlsafe_b64encode s = b64body s ++ List.replicate (padLen s.length) '=' := by
  induction s using b64body.induct with
  | case1 b0 b1 b2 rest ih =>
    rw [urlsafe_b64encode, b64body, ih]
    have hlen : padLen (b0 :: b1 :: b2 :: rest).length = padLen rest.length := by
      simp [padLen, List.length_cons]
      omega
    rw [hlen]
    simp
  | case2 b0 b1 => rfl
  | case3 b0 => rfl
  | case4 => rfl

theorem no_pad_in_body (s : List Nat) (hs : ∀ b ∈ s, b < 256) : '=' ∉ b64body s := by
  induction s using b64body.induct with
  | case1 b0 b1 b2 rest ih =>
    have h0 : b0 < 256 := hs b0 (by simp)
    have h1 : b1 < 256 := hs b1 (by simp)
    have h2 : b2 < 256 := hs b2 (by simp)
    have hrest : ∀ b ∈ rest, b < 256 := fun b hb => hs b (by simp [hb])
    rw [b64body]
    simp only [List.mem_cons, not_or]
    exact ⟨fun he => b64char_ne_pad _ (by omega) he.symm,
      fun he => b64char_ne_pad _ (by omega) he.symm,
      fun he => b64char_ne_pad _ (by omega) he.symm,
      fun he => b64char_ne_pad _ (by omega) he.symm,
      ih hrest⟩
  | case2 b0 b1 =>
    have h0 : b0 < 256 := hs b0 (by simp)
    have h1 : b1 < 256 := hs b1 (by simp)
    rw [b64body]
    simp only [List.mem_cons, not_or]
    exact ⟨fun he => b64char_ne_pad _ (by omega) he.symm,
      fun he => b64char_ne_pad _ (by omega) he.symm,
      fun he => b64char_ne_pad _ (by omega) he.symm, by simp⟩
  | case3 b0 =>
    have h0 : b0 < 256 := hs b0 (by simp)
    rw [b64body]
    simp only [List.mem_cons, not_or]
    exact ⟨fun he => b64char_ne_pad _ (by omega) he.symm,
      fun he => b64char_ne_pad _ (by omega) he.symm, by simp⟩
  | case4 => simp [b64body]

theorem dropWhile_no_head (l : List Char) (hl : '=' ∉ l) :
    l.dropWhile (fun c => c == '=') = l := by
  cases l with
  | nil => rfl
  | cons c t =>
    have hc : ¬ c = '=' := fun he => hl (by simp [he])
    rw [List.dropWhile_cons, if_neg (by simp [hc])]

theorem dropWhile_replicate_pad (k : Nat) (l : List Char) :
    (List.replicate k '=' ++ l).dropWhile (fun c => c == '=') =
      l.dropWhile (fun c => c == '=') := by
  induction k with
  | zero => simp
  | succ k ih => simp [List.replicate_succ, List.dropWhile_cons, ih]

theorem stripPad_append_pads (body : List Char) (k : Nat) (hb : '=' ∉ body) :
    stripPad (body ++ List.replicate k '=') = body := by
  rw [stripPad]
  cases body with
  | nil =>
    simp only [List.nil_append]
    rw [show (List.replicate k '=' : List Char) = List.replicate k '=' ++ [] by simp,
      dropWhile_replicate_pad]
    simp
  | cons c t =>
    have hc : ¬ c = '=' := fun he => hb (by simp [he])
    rw [List.cons_append, List.dropWhile_cons, if_neg (by simp [hc])]
    rw [show (c :: (t ++ List.replicate k '=')) = (c :: t) ++ List.replicate k '=' from rfl]
    rw [List.reverse_append, List.reverse_replicate, dropWhile_replicate_pad]
    rw [dropWhile_no_head _ (by rw [List.mem_reverse]; exact hb)]
    simp

theorem b64val_ne_pad (c : Char) (v : Nat) (hcv : b64val c = some v) : ¬ c = '=' := by
  intro he
  rw [he] at hcv
  simp [b64val] at hcv

theorem a2b_step_low (c : Char) (v : Nat) (hcv : b64val c = some v) (l : List Char)
    (q lc lb : Nat) (acc : List Nat) (hlb : ¬ 8 ≤ lb + 6) :
    a2b (c :: l) q lc lb acc = a2b l ((q + 1) % 4) (lc * 64 + v) (lb + 6) acc := by
  rw [a2b, if_neg (b64val_ne_pad c v hcv)]
  simp only [hcv]
  rw [if_neg hlb]

theorem a2b_step_emit (c : Char) (v : Nat) (hcv : b64val c = some v) (l : List Char)
    (q lc lb : Nat) (acc : List Nat) (hlb : 8 ≤ lb + 6) :
    a2b (c :: l) q lc lb acc =
      a2b l ((q + 1) % 4) ((lc * 64 + v) % 2 ^ (lb + 6 - 8)) (lb + 6 - 8)
        ((lc * 64 + v) / 2 ^ (lb + 6 - 8) % 256 :: acc) := by
  rw [a2b, if_neg (b64val_ne_pad c v hcv)]
  simp only [hcv]
  rw [if_pos hlb]

theorem a2b_pad_stop2 (rest : List Char) (lc lb : Nat) (acc : List Nat)
    (hfv : findValid rest = some '=') :
    a2b ('=' :: rest) 2 lc lb acc = some acc.reverse := by
  rw [a2b, if_pos rfl, if_neg (by simp [hfv])]

theorem a2b_pad_stop3 (rest : List Char) (lc lb : Nat) (acc : List Nat) :
    a2b ('=' :: rest) 3 lc lb acc = some acc.reverse := by
  rw [a2b, if_pos rfl, if_neg (by simp)]

theorem a2b_quad (b0 b1 b2 : Nat) (h0 : b0 < 256) (h1 : b1 < 256) (h2 : b2 < 256)
    (rest : List Char) (acc : List Nat) :
    a2b (urlTranslate (b64char (b0 / 4)) :: urlTranslate (b64char (b0 % 4 * 16 + b1 / 16)) ::
        urlTranslate (b64char (b1 % 16 * 4 + b2 / 64)) :: urlTranslate (b64char (b2 % 64)) ::
        rest) 0 0 0 acc =
      a2b rest 0 0 0 (b2 :: b1 :: b0 :: acc) := by
  have hv0 := b64_char_roundtrip (b0 / 4) (by omega)
  have hv1 := b64_char_roundtrip (b0 % 4 * 16 + b1 / 16) (by omega)
  have hv2 := b64_char_roundtrip (b1 % 16 * 4 + b2 / 64) (by omega)
  have hv3 := b64_char_roundtrip (b2 % 64) (by omega)
  rw [a2b_step_low _ _ hv0 _ _ _ _ _ (by omega)]
  rw [a2b_step_emit _ _ hv1 _ _ _ _ _ (by omega)]
  rw [a2b_step_emit _ _ hv2 _ _ _ _ _ (by omega)]
  rw [a2b_step_emit _ _ hv3 _ _ _ _ _ (by omega)]
  norm_num
  have eA : b0 / 4 * 64 + (b0 % 4 * 16 + b1 / 16) = b0 * 16 + b1 / 16 := by omega
  rw [eA]
  have eB : (b0 * 16 + b1 / 16) % 16 = b1 / 16 := by omega
  rw [eB]
  have eC : (b0 * 16 + b1 / 16) / 16 % 256 = b0 := by omega
  rw [eC]
  have eD : b1 / 16 * 64 + (b1 % 16 * 4 + b2 / 64) = b1 * 4 + b2 / 64 := by omega
  rw [eD]
  have eE : (b1 * 4 + b2 / 64) % 4 = b2 / 64 := by omega
  rw [eE]
  have eF : (b1 * 4 + b2 / 64) / 4 % 256 = b1 := by omega
  rw [eF]
  have eG : b2 / 64 * 64 + b2 % 64 = b2 := by omega
  rw [eG]
  have eH : b2 % 1 = 0 := by omega
  rw [eH]
  have eI : b2 % 256 = b2 := by omega
  rw [eI]

theorem a2b_body (s : List Nat) :
    ∀ acc : List Nat, (∀ b ∈ s, b < 256) →
    a2b ((b64body s).map urlTranslate ++ List.replicate ((b64body s).length % 4) '=')
        0 0 0 acc = some (acc.reverse ++ s) := by
  induction s using b64body.induct with
  | case1 b0 b1 b2 rest ih =>
    intro acc hs
    have h0 : b0 < 256 := hs b0 (by simp)
    have h1 : b1 < 256 := hs b1 (by simp)
    have h2 : b2 < 256 := hs b2 (by simp)
    have hrest : ∀ b ∈ rest, b < 256 := fun b hb => hs b (by simp [hb])
    have hlen : (b64body (b0 :: b1 :: b2 :: rest)).length % 4 = (b64body rest).length % 4 := by
      rw [b64body]
      simp [List.length_cons]
      omega
    rw [hlen, b64body]
    simp only [List.map_cons, List.cons_append]
    rw [a2b_quad b0 b1 b2 h0 h1 h2 _ acc]
    rw [ih (b2 :: b1 :: b0 :: acc) hrest]
    simp
  | case2 b0 b1 =>
    intro acc hs
    have h0 : b0 < 256 := hs b0 (by simp)
    have h1 : b1 < 256 := hs b1 (by simp)
    have hv0 := b64_char_roundtrip (b0 / 4) (by omega)
    have hv1 := b64_char_roundtrip (b0 % 4 * 16 + b1 / 16) (by omega)
    have hv2 := b64_char_roundtrip (b1 % 16 * 4) (by omega)
    show a2b (urlTranslate (b64char (b0 / 4)) :: urlTranslate (b64char (b0 % 4 * 16 + b1 / 16)) ::
        urlTranslate (b64char (b1 % 16 * 4)) :: '=' :: '=' :: '=' :: []) 0 0 0 acc =
      some (acc.reverse ++ [b0, b1])
    rw [a2b_step_low _ _ hv0 _ _ _ _ _ (by omega)]
    rw [a2b_step_emit _ _ hv1 _ _ _ _ _ (by omega)]
    rw [a2b_step_emit _ _ hv2 _ _ _ _ _ (by omega)]
    norm_num
    have eA : b0 / 4 * 64 + (b0 % 4 * 16 + b1 / 16) = b0 * 16 + b1 / 16 := by omega
    rw [eA]
    have eB : (b0 * 16 + b1 / 16) % 16 = b1 / 16 := by omega
    rw [eB]
    have eC : (b0 * 16 + b1 / 16) / 16 % 256 = b0 := by omega
    rw [eC]
    have eD : b1 / 16 * 64 % 4 = 0 := by omega
    rw [eD]
    have eE : (b1 / 16 * 64 + b1 % 16 * 4) / 4 % 256 = b1 := by omega
    rw [eE]
    rw [a2b_pad_stop3]
    simp
  | case3 b0 =>
    intro acc hs
    have h0 : b0 < 256 := hs b0 (by simp)
    have hv0 := b64_char_roundtrip (b0 / 4) (by omega)
    have hv1 := b64_char_roundtrip (b0 % 4 * 16) (by omega)
    show a2b (urlTranslate (b64char (b0 / 4)) :: urlTranslate (b64char (b0 % 4 * 16)) ::
        '=' :: '=' :: []) 0 0 0 acc = some (acc.reverse ++ [b0])
    rw [a2b_step_low _ _ hv0 _ _ _ _ _ (by omega)]
    rw [a2b_step_emit _ _ hv1 _ _ _ _ _ (by omega)]
    norm_num
    have eA : b0 / 4 * 64 + b0 % 4 * 16 = b0 * 16 := by omega
    rw [eA]
    have eB : b0 / 4 * 64 % 16 = 0 := by omega
    rw [eB]
    have eC : b0 * 16 / 16 % 256 = b0 := by omega
    rw [eC]
    rw [a2b_pad_stop2 _ _ _ _ (by rfl)]
    simp
  | case4 =>
    intro acc _
    simp [b64body, a2b]

/-- C3: for every byte string s, string_b64decode recovers s from
string_b64encode s: the stripped URL-safe encoding re-padded by
length-mod-4 decodes to the original bytes (binascii's decoder tolerates
the over-padding that the length-mod-4 rule produces for a body length of
3 mod 4). -/
theorem c3_b64_roundtrip (s : List Nat) (hs : ∀ b ∈ s, b < 256) :
    string_b64decode (string_b64encode s) = some s := by
  have hb : string_b64encode s = b64body s := by
    rw [string_b64encode, encode_split]
    exact stripPad_append_pads _ _ (no_pad_in_body s hs)
  rw [string_b64decode, hb, urlsafe_b64decode, List.map_append]
  have hpads : (List.replicate ((b64body s).length % 4) '=').map urlTranslate =
      List.replicate ((b64body s).length % 4) '=' := by
    simp [urlTranslate]
  rw [hpads]
  have := a2b_body s [] hs
  simpa using this

theorem c3_b64_roundtrip_witness :
    string_b64decode (string_b64encode [104, 105, 33, 251, 0]) = some [104, 105, 33, 251, 0] :=
  c3_b64_roundtrip [104, 105, 33, 251, 0] (by decide)

end Pyes
